import Mathlib

/-
  Verification of the mapping-and-generation engine of the Excel template
  generator (src/utils/excel_ops.py) against its specification.

  The embedding models:
  - cell values as pandas sees them (strings, numbers, NaN);
  - a report file as the raw grid of its first sheet, a list of rows
    (pd.read_excel consumes row 0 of the grid as the header, so the
    DataFrame it returns holds the rows of the grid after the first);
  - a template workbook as a map from sheet names to grids of cells,
    matching the xlwings view used by generate_populated_template;
  - the report cache as an association list from report path to the
    DataFrame loaded for it.

  Fallible operations return Except.  File reads are modelled by
  functions into Option: none stands for a file that cannot be parsed.
-/

set_option linter.unusedVariables false

namespace ExcelGen

/-- Cell values as pandas sees them: missing (NaN), strings, or numbers. -/
inductive Value where
  | na : Value
  | str (s : String) : Value
  | num (n : Int) : Value
deriving DecidableEq

abbrev Row := List Value

abbrev Table := List Row

/-- Python str.strip on the character list of a string: drop leading and
trailing whitespace. -/
def stripList (l : List Char) : List Char :=
  ((l.dropWhile Char.isWhitespace).reverse.dropWhile Char.isWhitespace).reverse

/-- Python str(x).strip() as used by get_fund_codes. -/
def pyStrip (s : String) : String := String.mk (stripList s.data)

/-- Python str(x) applied to a cell value; str of the float nan is "nan". -/
def strOfValue : Value → String
  | .na => "nan"
  | .str s => s
  | .num n => toString n

/-- pd.notna on a cell value. -/
def notna : Value → Bool
  | .na => false
  | _ => true

/-- Python str.lower(), character by character. -/
def pyLower (s : String) : String := String.mk (s.data.map Char.toLower)

/-- Insertion step of an insertion sort modelling Python sorted(...). -/
def insertSorted (a : String) : List String → List String
  | [] => [a]
  | b :: t => if (compare a b).isLE then a :: b :: t else b :: insertSorted a t

/-- Python sorted(...) on a list of strings (the exact order is irrelevant
to every claim; only the multiset of elements matters). -/
def pySorted (l : List String) : List String := l.foldr insertSorted []

/-- ExcelHandler.get_fund_codes (excel_ops.py lines 104-142).
The argument is the raw grid of the report's first sheet (none when the
file cannot be read).  pd.read_excel consumes the grid's first row as the
header, giving the DataFrame df; the code then additionally skips the
first row of df ("df.iloc[1:, 0]"), converts to stripped strings, drops
NaN, empty and "nan"-like entries, deduplicates and sorts. -/
def get_fund_codes (file : Option (List Row)) : Except String (List String) :=
  match file with
  | none => .error "Error extracting fund codes"
  | some g =>
    let df := g.drop 1
    if df.isEmpty then .ok []
    else
      let first_col := (df.drop 1).map (fun r => r.headD Value.na)
      let fund_codes := first_col.filterMap (fun code =>
        if notna code then
          let str_code := pyStrip (strOfValue code)
          if str_code ≠ "" ∧ pyLower str_code ≠ "nan" then some str_code else none
        else none)
      .ok (pySorted fund_codes.dedup)

/-- One step of the loop of ExcelHandler.analyze_fund_codes (lines 148-157):
a file whose extraction fails is skipped; a nonempty code list is appended
to the running list of all fund codes. -/
def analyzeStep (acc : List String) (f : Option (List Row)) : List String :=
  match get_fund_codes f with
  | .ok fund_codes => if fund_codes.isEmpty then acc else acc ++ fund_codes
  | .error _ => acc

/-- ExcelHandler.analyze_fund_codes (lines 145-158): the concatenated list
all_fund_codes over the given files. -/
def analyze_fund_codes (files : List (Option (List Row))) : List String :=
  files.foldl analyzeStep []

/-- The count dict(Counter(all_fund_codes)) returns for a code
(0 when the code is absent from the dict). -/
def analyzeCount (files : List (Option (List Row))) (code : String) : Nat :=
  (analyze_fund_codes files).count code

/-- Does this file's deduplicated extraction set contain the code? -/
def hasCode (code : String) (f : Option (List Row)) : Bool :=
  match get_fund_codes f with
  | .ok cs => decide (code ∈ cs)
  | .error _ => false

/-- ExcelHandler.read_excel (lines 20-29).  A workbook as pandas sees it is
the ordered list of (sheet name, raw grid) pairs; none models a file that
cannot be parsed.  With no sheet name the first sheet (native order) is
used; xl.sheet_names[0] on a workbook with no sheets raises, and a missing
named sheet makes pd.read_excel raise; both are wrapped into the same
error.  The returned DataFrame holds the grid's rows after the header. -/
def read_excel (file : Option (List (String × List Row))) (sheetName : Option String) :
    Except String Table :=
  match file with
  | none => .error "Error reading Excel file"
  | some wb =>
    match sheetName with
    | none =>
      match wb with
      | [] => .error "Error reading Excel file"
      | (_, g) :: _ => .ok (g.drop 1)
    | some n =>
      match wb.lookup n with
      | none => .error "Error reading Excel file"
      | some g => .ok (g.drop 1)

/-- An A1-style cell position, already parsed to 0-based row and column. -/
structure Pos where
  row : Nat
  col : Nat
deriving DecidableEq

/-- One user mapping: the dict entry "sheet!cell" -> report of
report_mappings, with the composite key split into its two parts. -/
structure Mapping where
  sheet : String
  cell : Pos
  report : String
deriving DecidableEq

/-- A template sheet as xlwings addresses it: a total grid of cells. -/
abbrev Grid := Nat → Nat → Value

/-- A template workbook: sheet name to grid, none for a missing sheet. -/
abbrev Workbook := String → Option Grid

/-- The report cache: report path to the DataFrame loaded for it. -/
abbrev Cache := List (String × Table)

/-- The value xlwings writes into cell (i, j) of a pasted range, counting
from the range's top-left corner. -/
def blockCell (vals : Table) (i j : Nat) : Value :=
  (vals.getD i []).getD j Value.na

/-- range.clear_contents() on the rectangle of m rows and n columns whose
top-left corner is (r0, c0): values in the rectangle are removed,
everything else is untouched. -/
def clear_contents (sh : Grid) (r0 c0 m n : Nat) : Grid :=
  fun r c =>
    if r0 ≤ r ∧ r < r0 + m ∧ c0 ≤ c ∧ c < c0 + n then Value.na else sh r c

/-- range.value = values on the same rectangle: cell (r, c) inside the
rectangle receives the block value at (r - r0, c - c0), row-major. -/
def setRangeValues (sh : Grid) (r0 c0 m n : Nat) (vals : Table) : Grid :=
  fun r c =>
    if r0 ≤ r ∧ r < r0 + m ∧ c0 ≤ c ∧ c < c0 + n then
      blockCell vals (r - r0) (c - c0)
    else sh r c

/-- Lines 230-232 of excel_ops.py: sheet.range(cell_ref) resized to the
block's dimensions (len(values) rows, len(values[0]) columns), cleared,
then assigned the block's values. -/
def applyWrite (sh : Grid) (pos : Pos) (vals : Table) : Grid :=
  setRangeValues
    (clear_contents sh pos.row pos.col vals.length (vals.headD []).length)
    pos.row pos.col vals.length (vals.headD []).length vals

/-- One planned write as generate performs it: the originating report, the
target sheet, the anchor cell, and the filtered row block pasted there. -/
structure WriteOp where
  report : String
  sheet : String
  pos : Pos
  block : Table
deriving DecidableEq

/-- Replace one sheet of a workbook. -/
def updateWb (wb : Workbook) (name : String) (sh : Grid) : Workbook :=
  fun n => if n = name then some sh else wb n

/-- Apply one planned write to the workbook (a no-op if the sheet is
missing; generate fails before logging a write for a missing sheet). -/
def applyWriteWb (wb : Workbook) (w : WriteOp) : Workbook :=
  match wb w.sheet with
  | none => wb
  | some sh => updateWb wb w.sheet (applyWrite sh w.pos w.block)

/-- First-occurrence deduplication of a key list, as iterating a Python
dict built by insertion visits its keys. -/
def firstKeysAux (seen : List String) : List String → List String
  | [] => []
  | k :: rest =>
    if k ∈ seen then firstKeysAux seen rest
    else k :: firstKeysAux (seen ++ [k]) rest

def firstKeys (l : List String) : List String := firstKeysAux [] l

/-- Grouping a mapping list by a key, keys in first-occurrence order and
each group holding, in order, every mapping with that key: the shape of
the dicts report_to_mappings (lines 188-193) and sheet_mappings
(lines 217-222). -/
def groupByKey (key : Mapping → String) (ms : List Mapping) :
    List (String × List Mapping) :=
  (firstKeys (ms.map key)).map (fun k => (k, ms.filter (fun m => key m == k)))

def groupByReport (ms : List Mapping) : List (String × List Mapping) :=
  groupByKey (fun m => m.report) ms

def groupBySheet (ms : List Mapping) : List (String × List Mapping) :=
  groupByKey (fun m => m.sheet) ms

/-- The error generate raises: the originating report path when the error
arose while processing that report's mappings (lines 234-235). -/
structure GenError where
  report : Option String
  msg : String
deriving DecidableEq

/-- Lines 202-207: take the report's DataFrame from the cache if present;
otherwise read it (an unreadable file raises, naming the report) and store
it in the cache.  Also returns the reads performed ([] or the report). -/
def resolveStep (cache : Cache) (fs : String → Option (List Row)) (rp : String) :
    Except GenError (Table × Cache × List String) :=
  match cache.lookup rp with
  | some df => .ok (df, cache, [])
  | none =>
    match fs rp with
    | none => .error ⟨some rp, "error reading report"⟩
    | some g => .ok (g.drop 1, cache ++ [(rp, g.drop 1)], [rp])

/-- Line 210: report_df[report_df.iloc[:, 0] == fund_code].  pandas
compares each first-column cell to the fund-code string: only a string
cell exactly equal to it matches; numbers and NaN never do. -/
def eqFund : Value → String → Bool
  | .str s, code => s == code
  | _, _ => false

def filterTable (df : Table) (code : String) : Table :=
  df.filter (fun row => eqFund (row.headD Value.na) code)

/-- A first-column cell that extraction normalizes but the generate filter
cannot match: a number, a missing value, or a string that is changed by
stripping (it carries surrounding whitespace). -/
def badCell : Value → Bool
  | .str s => !(pyStrip s == s)
  | _ => true

/-- Lines 225-232 for one sheet group: fetch the sheet (a missing sheet
raises, naming the report), then paste the block at each mapped cell. -/
def processSheetGroup (rp : String) (block : Table) (wb : Workbook)
    (sn : String) (sms : List Mapping) :
    Except GenError (Workbook × List WriteOp) :=
  match wb sn with
  | none => .error ⟨some rp, "sheet not found"⟩
  | some _ =>
    let ops := sms.map (fun m => WriteOp.mk rp sn m.cell block)
    .ok (ops.foldl applyWriteWb wb, ops)

/-- The loop over sheet groups of one report (lines 224-232). -/
def processSheetGroups (rp : String) (block : Table) :
    List (String × List Mapping) → Workbook → List WriteOp →
    Except GenError (Workbook × List WriteOp)
  | [], wb, ws => .ok (wb, ws)
  | (sn, sms) :: rest, wb, ws =>
    match processSheetGroup rp block wb sn sms with
    | .error e => .error e
    | .ok (wb', ops) => processSheetGroups rp block rest wb' (ws ++ ops)

/-- The loop over report groups (lines 199-235): resolve the report's
DataFrame through the cache, filter it by the fund code, and, when the
filtered block is nonempty, paste it at every mapped cell; an empty
filtered block skips the report's mappings entirely. -/
def processGroups (fs : String → Option (List Row)) (fc : String) :
    List (String × List Mapping) → Workbook → Cache → List String → List WriteOp →
    Except GenError (Workbook × Cache × List String × List WriteOp)
  | [], wb, cache, loads, ws => .ok (wb, cache, loads, ws)
  | (rp, gms) :: rest, wb, cache, loads, ws =>
    match resolveStep cache fs rp with
    | .error e => .error e
    | .ok (df, cache', d) =>
      let filtered := filterTable df fc
      if filtered.isEmpty then
        processGroups fs fc rest wb cache' (loads ++ d) ws
      else
        match processSheetGroups rp filtered (groupBySheet gms) wb [] with
        | .error e => .error e
        | .ok (wb', ops) =>
          processGroups fs fc rest wb' cache' (loads ++ d) (ws ++ ops)

/-- The outcome of one generate_populated_template call: the content of
the output file after the call (none when it was deleted or never
created), the raised error or the returned cache, the reports read from
disk, and the writes performed, in order. -/
structure GenResult where
  outputFile : Option Workbook
  result : Except GenError Cache
  loads : List String
  writes : List WriteOp

/-- ExcelHandler.generate_populated_template (lines 160-247).  copyOk
models the shutil.copy2 call sitting before the try block: when it fails
the output path keeps its previous content prevOut and nothing is deleted.
After a successful copy the output holds the template; any later failure
deletes the partial output file and surfaces the error; on success the
saved workbook and the updated cache are returned. -/
def generateFull (copyOk : Bool) (prevOut : Option Workbook) (template : Workbook)
    (fs : String → Option (List Row)) (ms : List Mapping) (fundCode : String)
    (cache : Cache) : GenResult :=
  if copyOk then
    match processGroups fs fundCode (groupByReport ms) template cache [] [] with
    | .ok (wb, c, l, w) => ⟨some wb, .ok c, l, w⟩
    | .error e => ⟨none, .error e, [], []⟩
  else
    ⟨prevOut, .error ⟨none, "error copying template"⟩, [], []⟩

/-- A generate call whose template copy succeeds (the common case). -/
def generate (template : Workbook) (fs : String → Option (List Row))
    (ms : List Mapping) (fundCode : String) (cache : Cache) : GenResult :=
  generateFull true none template fs ms fundCode cache

/-- The batch loop of main.py (lines 450-466) restricted to runs where
every call succeeds: each fund code's generate call receives the cache
returned by the previous one; the reads of every call are concatenated. -/
def runBatch (template : Workbook) (fs : String → Option (List Row))
    (ms : List Mapping) : List String → Cache →
    Except GenError (Cache × List String)
  | [], cache => .ok (cache, [])
  | fc :: rest, cache =>
    let res := generate template fs ms fc cache
    match res.result with
    | .error e => .error e
    | .ok cache' =>
      match runBatch template fs ms rest cache' with
      | .error e => .error e
      | .ok (cf, ls) => .ok (cf, res.loads ++ ls)

/-- The DataFrame generate uses for a report, resolved against a cache
state: the cached table if present, else the file's rows after the
header.  resolveStep succeeds with exactly this table. -/
def resolveTable (cache : Cache) (fs : String → Option (List Row)) (rp : String) :
    Option Table :=
  match cache.lookup rp with
  | some df => some df
  | none => (fs rp).map (fun g => g.drop 1)

/-- The writes generate performs for one report group whose filtered
block is B: one per mapping, grouped by sheet, all carrying B. -/
def opsFor (rp : String) (gms : List Mapping) (B : Table) : List WriteOp :=
  (groupBySheet gms).flatMap (fun g => g.2.map (fun m => WriteOp.mk rp g.1 m.cell B))

/-- The writes generate performs for one report group, resolved against a
cache state: none when the report's filtered block is empty. -/
def groupOps (fs : String → Option (List Row)) (fc : String) (cache : Cache)
    (p : String × List Mapping) : List WriteOp :=
  match resolveTable cache fs p.1 with
  | none => []
  | some df =>
    if (filterTable df fc).isEmpty then [] else opsFor p.1 p.2 (filterTable df fc)

/-! ### String stripping lemmas -/

lemma dropWhile_dropWhile (p : Char → Bool) (l : List Char) :
    (l.dropWhile p).dropWhile p = l.dropWhile p := by
  induction l with
  | nil => rfl
  | cons a t ih =>
    by_cases h : p a
    · simp [List.dropWhile_cons, h, ih]
    · simp [List.dropWhile_cons, h]

lemma head?_dropWhile (p : Char → Bool) (l : List Char) :
    ∀ a, (l.dropWhile p).head? = some a → p a = false := by
  induction l with
  | nil => intro a h; simp at h
  | cons b t ih =>
    intro a h
    by_cases hb : p b
    · simp [List.dropWhile_cons, hb] at h; exact ih a h
    · simp [List.dropWhile_cons, hb] at h
      subst h; simpa using hb

lemma dropWhile_eq_self_of_head (p : Char → Bool) (l : List Char)
    (h : ∀ a, l.head? = some a → p a = false) : l.dropWhile p = l := by
  cases l with
  | nil => rfl
  | cons a t => simp [List.dropWhile_cons, h a rfl]

lemma stripList_idem (l : List Char) : stripList (stripList l) = stripList l := by
  unfold stripList
  set p := Char.isWhitespace with hp
  set A := l.dropWhile p with hA
  set B := A.reverse.dropWhile p with hB
  -- step 1: the result starts with a non-whitespace character
  have hRdrop : B.reverse.dropWhile p = B.reverse := by
    apply dropWhile_eq_self_of_head
    intro a ha
    have hBne : B ≠ [] := by
      intro hnil
      rw [hnil] at ha; simp at ha
    have h1 : B.reverse.head? = B.getLast? := List.head?_reverse B
    have h2 : B.getLast? = A.reverse.getLast? := by
      obtain ⟨t, ht⟩ := List.dropWhile_suffix (l := A.reverse) p
      have hsplit : t ++ B = A.reverse := by rw [hB]; exact ht
      cases hBL : B.getLast? with
      | none => exact absurd (List.getLast?_eq_none_iff.mp hBL) hBne
      | some x =>
        have hga : A.reverse.getLast? = (B.getLast?).or t.getLast? := by
          rw [← hsplit]; exact List.getLast?_append
        rw [hga, hBL]
        rfl
    have h3 : A.reverse.getLast? = A.head? := List.getLast?_reverse A
    have hAh : A.head? = some a := by rw [← h3, ← h2, ← h1, ha]
    exact head?_dropWhile p l a (by rw [← hA]; exact hAh)
  rw [hRdrop]
  have hRev : B.reverse.reverse = B := List.reverse_reverse B
  rw [hRev, hB, dropWhile_dropWhile]

lemma pyStrip_idem (s : String) : pyStrip (pyStrip s) = pyStrip s := by
  unfold pyStrip
  rw [show (String.mk (stripList s.data)).data = stripList s.data from rfl,
    stripList_idem]

/-! ### Fund-code extraction lemmas -/

lemma insertSorted_perm (a : String) (l : List String) :
    (insertSorted a l).Perm (a :: l) := by
  induction l with
  | nil => exact List.Perm.refl _
  | cons b t ih =>
    unfold insertSorted
    by_cases h : (compare a b).isLE
    · simp [h]
    · simp only [h, if_false]
      exact (ih.cons b).trans (List.Perm.swap a b t)

lemma pySorted_perm (l : List String) : (pySorted l).Perm l := by
  induction l with
  | nil => exact List.Perm.refl _
  | cons a t ih =>
    show (insertSorted a (pySorted t)).Perm (a :: t)
    exact (insertSorted_perm a (pySorted t)).trans (ih.cons a)

lemma nodup_get_fund_codes (f : Option (List Row)) (cs : List String)
    (h : get_fund_codes f = .ok cs) : cs.Nodup := by
  cases f with
  | none => simp [get_fund_codes] at h
  | some g =>
    simp only [get_fund_codes] at h
    split at h
    · injection h with h
      rw [← h]; exact List.nodup_nil
    · injection h with h
      rw [← h]
      exact ((pySorted_perm _).symm).nodup (List.nodup_dedup _)

lemma strip_fixed_of_mem_get_fund_codes (g : List Row) (cs : List String)
    (c : String) (h : get_fund_codes (some g) = .ok cs) (hc : c ∈ cs) :
    pyStrip c = c := by
  simp only [get_fund_codes] at h
  split at h
  · injection h with h
    rw [← h] at hc; simp at hc
  · injection h with h
    rw [← h] at hc
    have h1 := (pySorted_perm _).mem_iff.mp hc
    have h2 := List.mem_dedup.mp h1
    obtain ⟨v, _, hv⟩ := List.mem_filterMap.mp h2
    split at hv
    · split at hv
      · injection hv with hv
        rw [← hv]; exact pyStrip_idem _
      · simp at hv
    · simp at hv

/-! ### Claim theorems on extraction and analysis -/

/-- Claim C1 (code_bug evaluation): on a report whose first sheet holds a
header row followed by the data rows F1 and F2, get_fund_codes returns
only F2: pandas already consumed the header, and the further skip of
df.iloc[1:, 0] drops the first data row, so F1 — a non-blank data row's
fund code — is omitted, contradicting the claim. -/
theorem c1_get_fund_codes_drops_first_data_row :
    get_fund_codes (some [[Value.str "FundCode"], [Value.str "F1"], [Value.str "F2"]])
      = .ok ["F2"] ∧ "F1" ∉ ["F2"] := by
  constructor
  · rfl
  · decide

lemma count_foldl_analyzeStep (code : String) :
    ∀ (files : List (Option (List Row))) (acc : List String),
      (files.foldl analyzeStep acc).count code
        = acc.count code + files.countP (hasCode code) := by
  intro files
  induction files with
  | nil => intro acc; simp
  | cons f t ih =>
    intro acc
    have hstep : (analyzeStep acc f).count code
        = acc.count code + (if hasCode code f then 1 else 0) := by
      unfold analyzeStep hasCode
      cases h : get_fund_codes f with
      | error e => simp
      | ok cs =>
        dsimp only
        by_cases hemp : cs.isEmpty
        · have : cs = [] := List.isEmpty_iff.mp hemp
          subst this; simp
        · rw [if_neg hemp, List.count_append]
          by_cases hmem : code ∈ cs
          · rw [List.count_eq_one_of_mem (nodup_get_fund_codes f cs h) hmem]
            simp [hmem]
          · rw [List.count_eq_zero.mpr hmem]
            simp [hmem]
    calc ((f :: t).foldl analyzeStep acc).count code
        = (t.foldl analyzeStep (analyzeStep acc f)).count code := rfl
      _ = (analyzeStep acc f).count code + t.countP (hasCode code) := ih _
      _ = acc.count code + (if hasCode code f then 1 else 0)
            + t.countP (hasCode code) := by rw [hstep]
      _ = acc.count code + (f :: t).countP (hasCode code) := by
            rw [List.countP_cons]; omega

/-- Claim C6: the count analyze_fund_codes reports for a fund code is the
number of files in the list whose (per-file deduplicated) extraction set
contains that code: a code occurring several times inside one file still
contributes exactly 1 for that file. -/
theorem c6_analyze_counts_files_containing_code
    (files : List (Option (List Row))) (code : String) :
    analyzeCount files code = files.countP (hasCode code) := by
  unfold analyzeCount analyze_fund_codes
  rw [count_foldl_analyzeStep code files []]
  simp

/-- Claim C8: a file whose extraction raises is skipped without aborting
the analysis — removing a failing file from the list leaves the
accumulated fund-code list, and hence every count, unchanged. -/
theorem c8_analyze_skips_failing_files
    (xs ys : List (Option (List Row))) (bad : Option (List Row)) (e : String)
    (h : get_fund_codes bad = .error e) :
    analyze_fund_codes (xs ++ bad :: ys) = analyze_fund_codes (xs ++ ys) := by
  unfold analyze_fund_codes
  rw [List.foldl_append, List.foldl_append]
  have hstep : analyzeStep (xs.foldl analyzeStep []) bad = xs.foldl analyzeStep [] := by
    unfold analyzeStep
    rw [h]
  show (bad :: ys).foldl analyzeStep (xs.foldl analyzeStep []) = _
  rw [List.foldl_cons, hstep]

/-- Witness for C8: dropping an unreadable file from a concrete analysis
leaves the result unchanged. -/
theorem c8_analyze_skips_failing_files_witness :
    analyze_fund_codes [some [[Value.str "H"], [Value.str "A"], [Value.str "B"]], none]
      = analyze_fund_codes [some [[Value.str "H"], [Value.str "A"], [Value.str "B"]]] := by
  have := c8_analyze_skips_failing_files
    [some [[Value.str "H"], [Value.str "A"], [Value.str "B"]]] [] none
    "Error extracting fund codes" rfl
  simpa using this

/-! ### Association-list lookup lemmas -/

lemma lookup_append_some {β : Type} (c c2 : List (String × β)) (k : String) (v : β)
    (h : c.lookup k = some v) : (c ++ c2).lookup k = some v := by
  induction c with
  | nil => simp [List.lookup] at h
  | cons p t ih =>
    rw [List.cons_append]
    by_cases hk : k == p.1
    · simpa [List.lookup, hk] using h
    · rw [show (p :: (t ++ c2)).lookup k = (t ++ c2).lookup k by simp [List.lookup, hk]]
      exact ih (by simpa [List.lookup, hk] using h)

lemma lookup_append_singleton_ne {β : Type} (c : List (String × β)) (k k' : String)
    (v' : β) (h : k ≠ k') : (c ++ [(k', v')]).lookup k = c.lookup k := by
  induction c with
  | nil =>
    have hb : (k == k') = false := beq_eq_false_iff_ne.mpr h
    simp [List.lookup, hb]
  | cons p t ih =>
    by_cases hk : k == p.1
    · simp [List.lookup, hk]
    · simp only [List.cons_append, List.lookup, hk]
      exact ih

lemma lookup_append_singleton_self {β : Type} (c : List (String × β)) (k : String)
    (v : β) (h : c.lookup k = none) : (c ++ [(k, v)]).lookup k = some v := by
  induction c with
  | nil => simp [List.lookup]
  | cons p t ih =>
    by_cases hk : k == p.1
    · simp [List.lookup, hk] at h
    · simp only [List.cons_append, List.lookup, hk]
      exact ih (by simpa [List.lookup, hk] using h)

/-! ### First-occurrence key lists and grouping -/

lemma mem_firstKeysAux (k : String) :
    ∀ (l seen : List String), k ∈ firstKeysAux seen l ↔ (k ∈ l ∧ k ∉ seen) := by
  intro l
  induction l with
  | nil => intro seen; simp [firstKeysAux]
  | cons a t ih =>
    intro seen
    by_cases ha : a ∈ seen
    · rw [show firstKeysAux seen (a :: t) = firstKeysAux seen t from by
        simp [firstKeysAux, ha]]
      rw [ih seen]
      constructor
      · rintro ⟨hm, hs⟩; exact ⟨List.mem_cons_of_mem a hm, hs⟩
      · rintro ⟨hm, hs⟩
        rcases List.mem_cons.mp hm with rfl | hm'
        · exact absurd ha hs
        · exact ⟨hm', hs⟩
    · rw [show firstKeysAux seen (a :: t) = a :: firstKeysAux (seen ++ [a]) t from by
        simp [firstKeysAux, ha]]
      constructor
      · intro hm
        rcases List.mem_cons.mp hm with rfl | hm'
        · exact ⟨List.mem_cons_self k t, ha⟩
        · have h2 := (ih (seen ++ [a])).mp hm'
          have h3 : k ∉ seen := fun hs => h2.2 (List.mem_append_left _ hs)
          exact ⟨List.mem_cons_of_mem a h2.1, h3⟩
      · rintro ⟨hm, hs⟩
        rcases List.mem_cons.mp hm with rfl | hm'
        · exact List.mem_cons_self k _
        · by_cases hka : k = a
          · subst hka; exact List.mem_cons_self k _
          · refine List.mem_cons_of_mem a ((ih (seen ++ [a])).mpr ⟨hm', ?_⟩)
            intro hmem
            rcases List.mem_append.mp hmem with h1 | h1
            · exact hs h1
            · exact hka (List.mem_singleton.mp h1)

lemma nodup_firstKeysAux :
    ∀ (l seen : List String), (firstKeysAux seen l).Nodup := by
  intro l
  induction l with
  | nil => intro seen; simp [firstKeysAux]
  | cons a t ih =>
    intro seen
    by_cases ha : a ∈ seen
    · rw [show firstKeysAux seen (a :: t) = firstKeysAux seen t from by
        simp [firstKeysAux, ha]]
      exact ih seen
    · rw [show firstKeysAux seen (a :: t) = a :: firstKeysAux (seen ++ [a]) t from by
        simp [firstKeysAux, ha]]
      refine List.nodup_cons.mpr ⟨fun hm => ?_, ih (seen ++ [a])⟩
      have h2 := (mem_firstKeysAux a t (seen ++ [a])).mp hm
      exact h2.2 (List.mem_append_right _ (List.mem_singleton.mpr rfl))

lemma mem_firstKeys (k : String) (l : List String) : k ∈ firstKeys l ↔ k ∈ l := by
  unfold firstKeys
  rw [mem_firstKeysAux]
  simp

lemma nodup_firstKeys (l : List String) : (firstKeys l).Nodup :=
  nodup_firstKeysAux l []

lemma flatMap_congr {α β : Type} (l : List α) (f g : α → List β)
    (h : ∀ a ∈ l, f a = g a) : l.flatMap f = l.flatMap g := by
  induction l with
  | nil => rfl
  | cons a t ih =>
    simp only [List.flatMap_cons]
    rw [h a (List.mem_cons_self a t), ih (fun x hx => h x (List.mem_cons_of_mem a hx))]

lemma firstKeysAux_flat_perm (key : Mapping → String) :
    ∀ (ms : List Mapping) (seen : List String),
      ((firstKeysAux seen (ms.map key)).flatMap
          (fun k => ms.filter (fun m => key m == k))).Perm
        (ms.filter (fun m => !(decide (key m ∈ seen)))) := by
  intro ms
  induction ms with
  | nil => intro seen; simp [firstKeysAux]
  | cons m t ih =>
    intro seen
    rw [List.map_cons]
    by_cases ha : key m ∈ seen
    · rw [show firstKeysAux seen (key m :: t.map key) = firstKeysAux seen (t.map key)
          from by simp [firstKeysAux, ha]]
      have hcongr : ∀ k ∈ firstKeysAux seen (t.map key),
          (m :: t).filter (fun m' => key m' == k) = t.filter (fun m' => key m' == k) := by
        intro k hk
        have hks := (mem_firstKeysAux k (t.map key) seen).mp hk
        have hne : (key m == k) = false := by
          refine beq_eq_false_iff_ne.mpr (fun hkm => ?_)
          exact hks.2 (hkm ▸ ha)
        simp [List.filter_cons, hne]
      rw [flatMap_congr _ _ _ hcongr]
      have hrhs : (m :: t).filter (fun m' => !(decide (key m' ∈ seen)))
          = t.filter (fun m' => !(decide (key m' ∈ seen))) := by
        simp [List.filter_cons, ha]
      rw [hrhs]
      exact ih seen
    · rw [show firstKeysAux seen (key m :: t.map key)
          = key m :: firstKeysAux (seen ++ [key m]) (t.map key) from by
        simp [firstKeysAux, ha]]
      rw [List.flatMap_cons]
      have hhead : (m :: t).filter (fun m' => key m' == key m)
          = m :: t.filter (fun m' => key m' == key m) := by
        simp [List.filter_cons]
      have hcongr : ∀ k ∈ firstKeysAux (seen ++ [key m]) (t.map key),
          (m :: t).filter (fun m' => key m' == k) = t.filter (fun m' => key m' == k) := by
        intro k hk
        have hks := (mem_firstKeysAux k (t.map key) (seen ++ [key m])).mp hk
        have hne : (key m == k) = false := by
          refine beq_eq_false_iff_ne.mpr (fun hkm => ?_)
          exact hks.2 (List.mem_append_right _ (List.mem_singleton.mpr hkm.symm))
        simp [List.filter_cons, hne]
      rw [flatMap_congr _ _ _ hcongr, hhead]
      have hrhs : (m :: t).filter (fun m' => !(decide (key m' ∈ seen)))
          = m :: t.filter (fun m' => !(decide (key m' ∈ seen))) := by
        simp [List.filter_cons, ha]
      rw [hrhs]
      have hih := ih (seen ++ [key m])
      have hsplit : t.filter (fun m' => !(decide (key m' ∈ seen ++ [key m])))
          = (t.filter (fun m' => !(decide (key m' ∈ seen)))).filter
              (fun m' => !(key m' == key m)) := by
        rw [List.filter_filter]
        apply List.filter_congr
        intro x hx
        by_cases h1 : key x ∈ seen <;> by_cases h2 : key x = key m <;>
          simp [List.mem_append, h1, h2]
      have hheadfilter : t.filter (fun m' => key m' == key m)
          = (t.filter (fun m' => !(decide (key m' ∈ seen)))).filter
              (fun m' => key m' == key m) := by
        rw [List.filter_filter]
        apply List.filter_congr
        intro x hx
        by_cases h2 : key x = key m
        · simp [h2, ha]
        · have hb : (key x == key m) = false := beq_eq_false_iff_ne.mpr h2
          simp [hb]
      refine List.Perm.trans ((hih.append_left _).cons m) ?_
      rw [hsplit, hheadfilter]
      exact (List.filter_append_perm _ _).cons m

lemma groupByKey_flat_perm (key : Mapping → String) (ms : List Mapping) :
    ((groupByKey key ms).flatMap (fun g => g.2)).Perm ms := by
  unfold groupByKey firstKeys
  rw [List.flatMap_map]
  refine (firstKeysAux_flat_perm key ms []).trans ?_
  rw [show (fun m => !(decide (key m ∈ ([] : List String)))) = (fun m : Mapping => true)
      from by funext m; simp]
  rw [List.filter_true]

lemma groupByKey_keys (key : Mapping → String) (ms : List Mapping) :
    (groupByKey key ms).map Prod.fst = firstKeys (ms.map key) := by
  unfold groupByKey
  rw [List.map_map]
  rw [show (Prod.fst ∘ fun k => (k, ms.filter (fun m => key m == k))) = id from rfl]
  exact List.map_id _

lemma groupByKey_keys_nodup (key : Mapping → String) (ms : List Mapping) :
    ((groupByKey key ms).map Prod.fst).Nodup := by
  rw [groupByKey_keys]
  exact nodup_firstKeys _

lemma mem_groupByKey {key : Mapping → String} {ms : List Mapping}
    {k : String} {g : List Mapping} (h : (k, g) ∈ groupByKey key ms) :
    g = ms.filter (fun m => key m == k) ∧ k ∈ ms.map key := by
  unfold groupByKey at h
  obtain ⟨k', hk', heq⟩ := List.mem_map.mp h
  cases heq
  exact ⟨rfl, (mem_firstKeys _ _).mp hk'⟩

/-! ### Writes of one report group -/

lemma mem_opsFor {rp : String} {gms : List Mapping} {B : Table} {w : WriteOp}
    (h : w ∈ opsFor rp gms B) : w.report = rp ∧ w.block = B := by
  unfold opsFor at h
  obtain ⟨g, hg, hw⟩ := List.mem_flatMap.mp h
  obtain ⟨m, hm, hmw⟩ := List.mem_map.mp hw
  rw [← hmw]
  exact ⟨rfl, rfl⟩

lemma opsFor_length (rp : String) (gms : List Mapping) (B : Table) :
    (opsFor rp gms B).length = gms.length := by
  unfold opsFor groupBySheet
  have h2 : ∀ gs : List (String × List Mapping),
      (gs.flatMap (fun g => g.2.map (fun m => WriteOp.mk rp g.1 m.cell B))).length
        = (gs.flatMap (fun g => g.2)).length := by
    intro gs
    induction gs with
    | nil => rfl
    | cons g t ih => simp [List.flatMap_cons, ih]
  rw [h2]
  exact (groupByKey_flat_perm (fun m => m.sheet) gms).length_eq

/-! ### Behaviour of the generate loops -/

lemma resolveStep_ok {cache : Cache} {fs : String → Option (List Row)} {rp : String}
    {df : Table} {cache' : Cache} {d : List String}
    (h : resolveStep cache fs rp = .ok (df, cache', d)) :
    resolveTable cache fs rp = some df ∧
      ((d = [] ∧ cache' = cache) ∨
        (d = [rp] ∧ cache.lookup rp = none ∧ cache' = cache ++ [(rp, df)])) := by
  unfold resolveStep at h
  unfold resolveTable
  cases hc : cache.lookup rp with
  | some df0 =>
    rw [hc] at h
    injection h with h
    injection h with h1 h
    injection h with h2 h3
    subst h1; subst h2; subst h3
    exact ⟨rfl, .inl ⟨rfl, rfl⟩⟩
  | none =>
    rw [hc] at h
    cases hf : fs rp with
    | none => rw [hf] at h; simp at h
    | some g =>
      rw [hf] at h
      injection h with h
      injection h with h1 h
      injection h with h2 h3
      subst h1; subst h2; subst h3
      exact ⟨rfl, .inr ⟨rfl, rfl, rfl⟩⟩

lemma resolveStep_error {cache : Cache} {fs : String → Option (List Row)} {rp : String}
    {e : GenError} (h : resolveStep cache fs rp = .error e) :
    e = ⟨some rp, "error reading report"⟩ := by
  unfold resolveStep at h
  cases hc : cache.lookup rp with
  | some df0 => rw [hc] at h; simp at h
  | none =>
    rw [hc] at h
    cases hf : fs rp with
    | none => rw [hf] at h; injection h with h; exact h.symm
    | some g => rw [hf] at h; simp at h

lemma resolveTable_append_ne {cache : Cache} {fs : String → Option (List Row)}
    {k rp : String} {df : Table} (h : k ≠ rp) :
    resolveTable (cache ++ [(rp, df)]) fs k = resolveTable cache fs k := by
  unfold resolveTable
  rw [lookup_append_singleton_ne _ _ _ _ h]

lemma groupOps_congr {fs : String → Option (List Row)} {fc : String}
    {c1 c2 : Cache} {p : String × List Mapping}
    (h : resolveTable c1 fs p.1 = resolveTable c2 fs p.1) :
    groupOps fs fc c1 p = groupOps fs fc c2 p := by
  unfold groupOps
  rw [h]

lemma processSheetGroup_ok {rp : String} {B : Table} {wb : Workbook} {sn : String}
    {sms : List Mapping} {wb' : Workbook} {ops : List WriteOp}
    (h : processSheetGroup rp B wb sn sms = .ok (wb', ops)) :
    ops = sms.map (fun m => WriteOp.mk rp sn m.cell B)
      ∧ wb' = ops.foldl applyWriteWb wb := by
  unfold processSheetGroup at h
  cases hs : wb sn with
  | none => rw [hs] at h; simp at h
  | some sh =>
    rw [hs] at h
    dsimp only at h
    injection h with h
    injection h with h1 h2
    subst h1; subst h2
    exact ⟨rfl, rfl⟩

lemma processSheetGroup_error {rp : String} {B : Table} {wb : Workbook} {sn : String}
    {sms : List Mapping} {e : GenError}
    (h : processSheetGroup rp B wb sn sms = .error e) : e.report = some rp := by
  unfold processSheetGroup at h
  cases hs : wb sn with
  | none =>
    rw [hs] at h
    injection h with h
    rw [← h]
  | some sh => rw [hs] at h; simp at h

lemma processSheetGroups_ok {rp : String} {B : Table} :
    ∀ (groups : List (String × List Mapping)) (wb : Workbook) (ws : List WriteOp)
      (wb' : Workbook) (ws' : List WriteOp),
      processSheetGroups rp B groups wb ws = .ok (wb', ws') →
      ∃ d, ws' = ws ++ d ∧ wb' = d.foldl applyWriteWb wb ∧
        d = groups.flatMap (fun g => g.2.map (fun m => WriteOp.mk rp g.1 m.cell B)) := by
  intro groups
  induction groups with
  | nil =>
    intro wb ws wb' ws' h
    unfold processSheetGroups at h
    injection h with h
    injection h with h1 h2
    subst h1; subst h2
    exact ⟨[], by simp, rfl, rfl⟩
  | cons g rest ih =>
    intro wb ws wb' ws' h
    obtain ⟨sn, sms⟩ := g
    unfold processSheetGroups at h
    cases hg : processSheetGroup rp B wb sn sms with
    | error e => rw [hg] at h; simp at h
    | ok p =>
      obtain ⟨wb2, ops⟩ := p
      rw [hg] at h
      dsimp only at h
      obtain ⟨hops, hwb2⟩ := processSheetGroup_ok hg
      obtain ⟨d2, hd1, hd2, hd3⟩ := ih wb2 (ws ++ ops) wb' ws' h
      refine ⟨ops ++ d2, ?_, ?_, ?_⟩
      · rw [hd1, List.append_assoc]
      · rw [hd2, hwb2, List.foldl_append]
      · rw [List.flatMap_cons, hd3, hops]

lemma processSheetGroups_error {rp : String} {B : Table} :
    ∀ (groups : List (String × List Mapping)) (wb : Workbook) (ws : List WriteOp)
      (e : GenError),
      processSheetGroups rp B groups wb ws = .error e → e.report = some rp := by
  intro groups
  induction groups with
  | nil => intro wb ws e h; unfold processSheetGroups at h; simp at h
  | cons g rest ih =>
    intro wb ws e h
    obtain ⟨sn, sms⟩ := g
    unfold processSheetGroups at h
    cases hg : processSheetGroup rp B wb sn sms with
    | error e2 =>
      rw [hg] at h
      injection h with h
      rw [← h]
      exact processSheetGroup_error hg
    | ok p =>
      obtain ⟨wb2, ops⟩ := p
      rw [hg] at h
      dsimp only at h
      exact ih wb2 (ws ++ ops) e h

lemma processGroups_ok_wb {fs : String → Option (List Row)} {fc : String} :
    ∀ (groups : List (String × List Mapping)) (wb : Workbook) (cache : Cache)
      (loads : List String) (ws : List WriteOp) wb' cache' loads' ws',
      processGroups fs fc groups wb cache loads ws = .ok (wb', cache', loads', ws') →
      ∃ d, ws' = ws ++ d ∧ wb' = d.foldl applyWriteWb wb := by
  intro groups
  induction groups with
  | nil =>
    intro wb cache loads ws wb' cache' loads' ws' h
    unfold processGroups at h
    injection h with h
    injection h with h1 h
    injection h with h2 h
    injection h with h3 h4
    subst h1; subst h4
    exact ⟨[], by simp, rfl⟩
  | cons g rest ih =>
    intro wb cache loads ws wb' cache' loads' ws' h
    obtain ⟨rp, gms⟩ := g
    unfold processGroups at h
    cases hr : resolveStep cache fs rp with
    | error e => rw [hr] at h; simp at h
    | ok v =>
      obtain ⟨df, cache2, d⟩ := v
      rw [hr] at h
      dsimp only at h
      by_cases hf : (filterTable df fc).isEmpty
      · rw [if_pos hf] at h
        exact ih _ _ _ _ _ _ _ _ h
      · rw [if_neg hf] at h
        cases hps : processSheetGroups rp (filterTable df fc) (groupBySheet gms) wb [] with
        | error e => rw [hps] at h; simp at h
        | ok p =>
          obtain ⟨wb2, ops⟩ := p
          rw [hps] at h
          dsimp only at h
          obtain ⟨d2, hd1, hd2⟩ := ih _ _ _ _ _ _ _ _ h
          obtain ⟨dd, hh1, hh2, hh3⟩ := processSheetGroups_ok _ _ _ _ _ hps
          have hops : ops = dd := by simpa using hh1
          refine ⟨ops ++ d2, ?_, ?_⟩
          · rw [hd1, List.append_assoc]
          · rw [hd2, hh2, hops, List.foldl_append]

lemma processGroups_ok_cache {fs : String → Option (List Row)} {fc : String} :
    ∀ (groups : List (String × List Mapping)) (wb : Workbook) (cache : Cache)
      (loads : List String) (ws : List WriteOp) wb' cache' loads' ws',
      processGroups fs fc groups wb cache loads ws = .ok (wb', cache', loads', ws') →
      ∃ dl, loads' = loads ++ dl ∧ dl.Nodup ∧
        (∀ r ∈ dl, cache.lookup r = none ∧ (cache'.lookup r).isSome) ∧
        (∀ k v, cache.lookup k = some v → cache'.lookup k = some v) := by
  intro groups
  induction groups with
  | nil =>
    intro wb cache loads ws wb' cache' loads' ws' h
    unfold processGroups at h
    injection h with h
    injection h with h1 h
    injection h with h2 h
    injection h with h3 h4
    subst h2; subst h3
    exact ⟨[], by simp, List.nodup_nil, by simp, fun k v hv => hv⟩
  | cons g rest ih =>
    intro wb cache loads ws wb' cache' loads' ws' h
    obtain ⟨rp, gms⟩ := g
    unfold processGroups at h
    cases hr : resolveStep cache fs rp with
    | error e => rw [hr] at h; simp at h
    | ok v =>
      obtain ⟨df, cache2, d⟩ := v
      rw [hr] at h
      dsimp only at h
      obtain ⟨hres, hcase⟩ := resolveStep_ok hr
      -- the recursive call is the same in both branches of the if
      have hrec : ∃ wbX wsX, processGroups fs fc rest wbX cache2 (loads ++ d) wsX
          = .ok (wb', cache', loads', ws') := by
        by_cases hfe : (filterTable df fc).isEmpty
        · rw [if_pos hfe] at h
          exact ⟨wb, ws, h⟩
        · rw [if_neg hfe] at h
          cases hps : processSheetGroups rp (filterTable df fc) (groupBySheet gms) wb [] with
          | error e => rw [hps] at h; simp at h
          | ok p =>
            obtain ⟨wb2, ops⟩ := p
            rw [hps] at h
            dsimp only at h
            exact ⟨wb2, ws ++ ops, h⟩
      obtain ⟨wbX, wsX, hX⟩ := hrec
      obtain ⟨dl2, hl1, hl2, hl3, hl4⟩ := ih _ _ _ _ _ _ _ _ hX
      rcases hcase with ⟨hd, hc2⟩ | ⟨hd, hnone, hc2⟩
      · subst hd; subst hc2
        refine ⟨dl2, by simpa using hl1, hl2, hl3, hl4⟩
      · subst hd; subst hc2
        refine ⟨rp :: dl2, ?_, ?_, ?_, ?_⟩
        · rw [hl1, List.append_assoc]; rfl
        · refine List.nodup_cons.mpr ⟨fun hm => ?_, hl2⟩
          have h0 := (hl3 rp hm).1
          rw [lookup_append_singleton_self _ _ _ hnone] at h0
          simp at h0
        · intro r hrm
          rcases List.mem_cons.mp hrm with rfl | hrm'
          · refine ⟨hnone, ?_⟩
            have := hl4 r df (lookup_append_singleton_self _ _ _ hnone)
            rw [this]; rfl
          · obtain ⟨hn2, hs2⟩ := hl3 r hrm'
            refine ⟨?_, hs2⟩
            cases hcr : cache.lookup r with
            | none => rfl
            | some v =>
              have := lookup_append_some cache [(rp, df)] r v hcr
              rw [this] at hn2
              simp at hn2
        · intro k v hv
          exact hl4 k v (lookup_append_some cache [(rp, df)] k v hv)

lemma processGroups_error {fs : String → Option (List Row)} {fc : String} :
    ∀ (groups : List (String × List Mapping)) (wb : Workbook) (cache : Cache)
      (loads : List String) (ws : List WriteOp) (e : GenError),
      processGroups fs fc groups wb cache loads ws = .error e →
      ∃ rp, e.report = some rp ∧ rp ∈ groups.map Prod.fst := by
  intro groups
  induction groups with
  | nil => intro wb cache loads ws e h; unfold processGroups at h; simp at h
  | cons g rest ih =>
    intro wb cache loads ws e h
    obtain ⟨rp, gms⟩ := g
    unfold processGroups at h
    cases hr : resolveStep cache fs rp with
    | error e2 =>
      rw [hr] at h
      injection h with h
      refine ⟨rp, ?_, by simp⟩
      rw [← h, resolveStep_error hr]
    | ok v =>
      obtain ⟨df, cache2, d⟩ := v
      rw [hr] at h
      dsimp only at h
      by_cases hfe : (filterTable df fc).isEmpty
      · rw [if_pos hfe] at h
        obtain ⟨rp', he, hm⟩ := ih _ _ _ _ _ h
        exact ⟨rp', he, List.mem_cons_of_mem _ hm⟩
      · rw [if_neg hfe] at h
        cases hps : processSheetGroups rp (filterTable df fc) (groupBySheet gms) wb [] with
        | error e2 =>
          rw [hps] at h
          injection h with h
          refine ⟨rp, ?_, by simp⟩
          rw [← h]
          exact processSheetGroups_error _ _ _ _ hps
        | ok p =>
          obtain ⟨wb2, ops⟩ := p
          rw [hps] at h
          dsimp only at h
          obtain ⟨rp', he, hm⟩ := ih _ _ _ _ _ h
          exact ⟨rp', he, List.mem_cons_of_mem _ hm⟩

lemma processGroups_all_empty {fs : String → Option (List Row)} {fc : String} :
    ∀ (groups : List (String × List Mapping)) (wb : Workbook) (cache : Cache)
      (loads : List String) (ws : List WriteOp),
      (∀ p ∈ groups, ∃ df, resolveTable cache fs p.1 = some df
          ∧ (filterTable df fc).isEmpty) →
      ((groups.map Prod.fst).Nodup) →
      ∃ cache' loads',
        processGroups fs fc groups wb cache loads ws = .ok (wb, cache', loads', ws) := by
  intro groups
  induction groups with
  | nil =>
    intro wb cache loads ws hall hnd
    exact ⟨cache, loads, rfl⟩
  | cons g rest ih =>
    intro wb cache loads ws hall hnd
    obtain ⟨rp, gms⟩ := g
    obtain ⟨df, hres, hemp⟩ := hall (rp, gms) (List.mem_cons_self _ _)
    have hnd' : (rest.map Prod.fst).Nodup := (List.nodup_cons.mp hnd).2
    have hrpnot : rp ∉ rest.map Prod.fst := by
      have := (List.nodup_cons.mp hnd).1
      simpa using this
    unfold resolveTable at hres
    cases hc : cache.lookup rp with
    | some df0 =>
      rw [hc] at hres
      have hdf : df0 = df := by injection hres
      subst hdf
      have hstep : resolveStep cache fs rp = .ok (df0, cache, []) := by
        unfold resolveStep; rw [hc]
      obtain ⟨cache', loads', hrec⟩ := ih wb cache (loads ++ []) ws
        (fun p hp => hall p (List.mem_cons_of_mem _ hp)) hnd'
      refine ⟨cache', loads', ?_⟩
      unfold processGroups
      rw [hstep]
      dsimp only
      rw [if_pos hemp]
      exact hrec
    | none =>
      rw [hc] at hres
      obtain ⟨grid, hg, hdrop⟩ := Option.map_eq_some'.mp hres
      have hstep : resolveStep cache fs rp
          = .ok (grid.drop 1, cache ++ [(rp, grid.drop 1)], [rp]) := by
        unfold resolveStep; rw [hc, hg]
      have htrans : ∀ p ∈ rest, ∃ df2,
          resolveTable (cache ++ [(rp, grid.drop 1)]) fs p.1 = some df2
            ∧ (filterTable df2 fc).isEmpty := by
        intro p hp
        obtain ⟨df2, hres2, hemp2⟩ := hall p (List.mem_cons_of_mem _ hp)
        have hne : p.1 ≠ rp := by
          intro hk
          exact hrpnot (hk ▸ List.mem_map_of_mem Prod.fst hp)
        exact ⟨df2, by rw [resolveTable_append_ne hne]; exact hres2, hemp2⟩
      obtain ⟨cache', loads', hrec⟩ := ih wb (cache ++ [(rp, grid.drop 1)])
        (loads ++ [rp]) ws htrans hnd'
      refine ⟨cache', loads', ?_⟩
      unfold processGroups
      rw [hstep]
      dsimp only
      rw [hdrop, if_pos hemp]
      rw [← hdrop]
      exact hrec

lemma processGroups_ok_writes {fs : String → Option (List Row)} {fc : String} :
    ∀ (groups : List (String × List Mapping)) (wb : Workbook) (cache : Cache)
      (loads : List String) (ws : List WriteOp) wb' cache' loads' ws',
      ((groups.map Prod.fst).Nodup) →
      processGroups fs fc groups wb cache loads ws = .ok (wb', cache', loads', ws') →
      ws' = ws ++ groups.flatMap (fun p => groupOps fs fc cache p) := by
  intro groups
  induction groups with
  | nil =>
    intro wb cache loads ws wb' cache' loads' ws' hnd h
    unfold processGroups at h
    injection h with h
    injection h with h1 h
    injection h with h2 h
    injection h with h3 h4
    subst h4
    simp
  | cons g rest ih =>
    intro wb cache loads ws wb' cache' loads' ws' hnd h
    obtain ⟨rp, gms⟩ := g
    have hnd' : (rest.map Prod.fst).Nodup := (List.nodup_cons.mp hnd).2
    have hrpnot : rp ∉ rest.map Prod.fst := by
      have := (List.nodup_cons.mp hnd).1
      simpa using this
    unfold processGroups at h
    cases hr : resolveStep cache fs rp with
    | error e => rw [hr] at h; simp at h
    | ok v =>
      obtain ⟨df, cache2, d⟩ := v
      rw [hr] at h
      dsimp only at h
      obtain ⟨hres, hcase⟩ := resolveStep_ok hr
      have hcache2 : ∀ p ∈ rest, resolveTable cache2 fs p.1 = resolveTable cache fs p.1 := by
        intro p hp
        rcases hcase with ⟨hd, hc2⟩ | ⟨hd, hnone, hc2⟩
        · rw [hc2]
        · rw [hc2]
          refine resolveTable_append_ne ?_
          intro hk
          exact hrpnot (hk ▸ List.mem_map_of_mem Prod.fst hp)
      have hcongr2 : rest.flatMap (fun p => groupOps fs fc cache2 p)
          = rest.flatMap (fun p => groupOps fs fc cache p) := by
        apply flatMap_congr
        intro p hp
        exact groupOps_congr (hcache2 p hp)
      have hhead : groupOps fs fc cache (rp, gms)
          = if (filterTable df fc).isEmpty then []
            else opsFor rp gms (filterTable df fc) := by
        unfold groupOps
        rw [hres]
      by_cases hfe : (filterTable df fc).isEmpty
      · rw [if_pos hfe] at h
        have := ih _ _ _ _ _ _ _ _ hnd' h
        rw [this, List.flatMap_cons, hcongr2, hhead, if_pos hfe, List.nil_append]
      · rw [if_neg hfe] at h
        cases hps : processSheetGroups rp (filterTable df fc) (groupBySheet gms) wb [] with
        | error e => rw [hps] at h; simp at h
        | ok p =>
          obtain ⟨wb2, ops⟩ := p
          rw [hps] at h
          dsimp only at h
          have hws2 := ih _ _ _ _ _ _ _ _ hnd' h
          obtain ⟨dd, hh1, hh2, hh3⟩ := processSheetGroups_ok _ _ _ _ _ hps
          have hops : ops = opsFor rp gms (filterTable df fc) := by
            have : ops = dd := by simpa using hh1
            rw [this, hh3]
            rfl
          rw [hws2, List.flatMap_cons, hcongr2, hhead, if_neg hfe, ← hops,
            List.append_assoc]

/-! ### Claim theorems on generation -/

lemma generate_unfold_ok {template : Workbook} {fs : String → Option (List Row)}
    {ms : List Mapping} {fc : String} {cache : Cache}
    {wb : Workbook} {c2 : Cache} {l : List String} {w : List WriteOp}
    (h : processGroups fs fc (groupByReport ms) template cache [] []
      = .ok (wb, c2, l, w)) :
    generate template fs ms fc cache = ⟨some wb, .ok c2, l, w⟩ := by
  unfold generate generateFull
  rw [if_pos rfl, h]

lemma generate_unfold_error {template : Workbook} {fs : String → Option (List Row)}
    {ms : List Mapping} {fc : String} {cache : Cache} {e : GenError}
    (h : processGroups fs fc (groupByReport ms) template cache [] [] = .error e) :
    generate template fs ms fc cache = ⟨none, .error e, [], []⟩ := by
  unfold generate generateFull
  rw [if_pos rfl, h]

/-- Claim C2: a fund code matching no row of any mapped report yields an
empty write plan; generate still succeeds and the output file's content is
the template's, untouched. -/
theorem c2_absent_fund_code_copies_template
    (template : Workbook) (fs : String → Option (List Row)) (ms : List Mapping)
    (fc : String) (cache : Cache)
    (h : ∀ m ∈ ms, (resolveTable cache fs m.report).isSome
      ∧ (filterTable ((resolveTable cache fs m.report).getD []) fc).isEmpty) :
    (generate template fs ms fc cache).writes = []
      ∧ (generate template fs ms fc cache).outputFile = some template
      ∧ ∃ c', (generate template fs ms fc cache).result = .ok c' := by
  have hall : ∀ p ∈ groupByReport ms, ∃ df,
      resolveTable cache fs p.1 = some df ∧ (filterTable df fc).isEmpty := by
    intro p hp
    obtain ⟨rp, gms⟩ := p
    obtain ⟨hg, hk⟩ := mem_groupByKey hp
    obtain ⟨m, hm, hmr⟩ := List.mem_map.mp hk
    obtain ⟨hsome, hempty⟩ := h m hm
    obtain ⟨df, hdf⟩ := Option.isSome_iff_exists.mp hsome
    refine ⟨df, by rw [← hmr]; exact hdf, ?_⟩
    rw [hdf] at hempty
    simpa using hempty
  obtain ⟨cache', loads', heq⟩ := processGroups_all_empty (groupByReport ms)
    template cache [] [] hall (groupByKey_keys_nodup _ _)
  rw [generate_unfold_ok heq]
  exact ⟨rfl, rfl, cache', rfl⟩

/-- Witness for C2: a fund code absent from the single mapped report
produces no writes and an output equal to the template. -/
theorem c2_absent_fund_code_copies_template_witness :
    (generate (fun n => if n = "S" then some (fun _ _ => Value.na) else none)
        (fun p => if p = "r1" then some [[Value.str "H"], [Value.str "A", Value.num 1]]
          else none)
        [Mapping.mk "S" (Pos.mk 4 0) "r1"] "ZZZ" []).writes = []
      ∧ (generate (fun n => if n = "S" then some (fun _ _ => Value.na) else none)
          (fun p => if p = "r1" then some [[Value.str "H"], [Value.str "A", Value.num 1]]
            else none)
          [Mapping.mk "S" (Pos.mk 4 0) "r1"] "ZZZ" []).outputFile
        = some (fun n => if n = "S" then some (fun _ _ => Value.na) else none)
      ∧ ∃ c', (generate (fun n => if n = "S" then some (fun _ _ => Value.na) else none)
          (fun p => if p = "r1" then some [[Value.str "H"], [Value.str "A", Value.num 1]]
            else none)
          [Mapping.mk "S" (Pos.mk 4 0) "r1"] "ZZZ" []).result = .ok c' :=
  c2_absent_fund_code_copies_template _ _ _ _ _ (by decide)

/-- Claim C3: any failure after the template copy deletes the partial
output and surfaces an error naming a mapped report; a failure of the copy
step itself deletes nothing — the output path keeps its prior content. -/
theorem c3_failure_after_copy_deletes_output
    (prevOut : Option Workbook) (template : Workbook)
    (fs : String → Option (List Row)) (ms : List Mapping) (fc : String)
    (cache : Cache) :
    (∀ e, (generateFull true prevOut template fs ms fc cache).result = .error e →
      (generateFull true prevOut template fs ms fc cache).outputFile = none
        ∧ ∀ rp, e.report = some rp → rp ∈ ms.map (fun m => m.report))
    ∧ (generateFull false prevOut template fs ms fc cache).outputFile = prevOut := by
  constructor
  · intro e he
    unfold generateFull at he ⊢
    rw [if_pos rfl] at he ⊢
    cases hpg : processGroups fs fc (groupByReport ms) template cache [] [] with
    | ok q =>
      obtain ⟨wb, c2, l, w⟩ := q
      rw [hpg] at he
      simp at he
    | error e2 =>
      rw [hpg] at he
      dsimp only at he ⊢
      injection he with he
      refine ⟨rfl, ?_⟩
      intro rp hrp
      obtain ⟨rp0, he0, hm0⟩ := processGroups_error _ _ _ _ _ _ hpg
      rw [he] at he0
      rw [hrp] at he0
      injection he0 with he0
      rw [he0]
      unfold groupByReport at hm0
      rw [groupByKey_keys] at hm0
      exact (mem_firstKeys _ _).mp hm0
  · unfold generateFull
    rw [if_neg (by simp)]

/-- Witness for C3: with an unreadable mapped report the output file is
deleted and the error names that report; a failed copy leaves the
previous content in place. -/
theorem c3_failure_after_copy_deletes_output_witness :
    ((generateFull true (some (fun _ => some (fun _ _ => Value.na)))
        (fun _ => some (fun _ _ => Value.na)) (fun _ => none)
        [Mapping.mk "S" (Pos.mk 0 0) "r1"] "F" []).outputFile = none
      ∧ "r1" ∈ ([Mapping.mk "S" (Pos.mk 0 0) "r1"].map (fun m => m.report)))
    ∧ (generateFull false (some (fun _ => some (fun _ _ => Value.na)))
        (fun _ => some (fun _ _ => Value.na)) (fun _ => none)
        [Mapping.mk "S" (Pos.mk 0 0) "r1"] "F" []).outputFile
      = some (fun _ => some (fun _ _ => Value.na)) := by
  have h := c3_failure_after_copy_deletes_output
    (some (fun _ => some (fun _ _ => Value.na)))
    (fun _ => some (fun _ _ => Value.na)) (fun _ => none)
    [Mapping.mk "S" (Pos.mk 0 0) "r1"] "F" []
  have h1 := h.1 (GenError.mk (some "r1") "error reading report") (by rfl)
  exact ⟨⟨h1.1, h1.2 "r1" rfl⟩, h.2⟩

/-- Claim C5, part of the proof: each planned write targets the rectangle
anchored at the cell position and sized by the block, fills it row-major,
and leaves every cell outside it untouched. -/
theorem c5_writes_are_cleared_rectangles
    (template : Workbook) (fs : String → Option (List Row)) (ms : List Mapping)
    (fc : String) (cache : Cache) :
    (∀ (sh : Grid) (pos : Pos) (vals : Table) (r c : Nat),
      (pos.row ≤ r ∧ r < pos.row + vals.length ∧ pos.col ≤ c
          ∧ c < pos.col + (vals.headD []).length →
        applyWrite sh pos vals r c = blockCell vals (r - pos.row) (c - pos.col))
      ∧ (¬(pos.row ≤ r ∧ r < pos.row + vals.length ∧ pos.col ≤ c
          ∧ c < pos.col + (vals.headD []).length) →
        applyWrite sh pos vals r c = sh r c))
    ∧ (∀ c', (generate template fs ms fc cache).result = .ok c' →
        (generate template fs ms fc cache).outputFile
          = some ((generate template fs ms fc cache).writes.foldl
              applyWriteWb template)) := by
  constructor
  · intro sh pos vals r c
    constructor
    · intro hin
      unfold applyWrite setRangeValues clear_contents
      rw [if_pos hin]
    · intro hout
      unfold applyWrite setRangeValues clear_contents
      rw [if_neg hout, if_neg hout]
  · intro c' h
    cases hpg : processGroups fs fc (groupByReport ms) template cache [] [] with
    | error e =>
      rw [generate_unfold_error hpg] at h
      simp at h
    | ok q =>
      obtain ⟨wb, c2, l, w⟩ := q
      rw [generate_unfold_ok hpg] at h ⊢
      obtain ⟨d, hd1, hd2⟩ := processGroups_ok_wb _ _ _ _ _ _ _ _ _ hpg
      have hw : w = d := by simpa using hd1
      dsimp only
      rw [hw, ← hd2]

/-- Witness for C5: a concrete 2-by-2 block written at B2 lands row-major
in the rectangle, an outside cell keeps its value, and a concrete generate
call's output equals the template patched by its logged writes. -/
theorem c5_writes_are_cleared_rectangles_witness :
    applyWrite (fun _ _ => Value.str "old") (Pos.mk 1 1)
      [[Value.num 1, Value.num 2], [Value.num 3, Value.num 4]] 2 1
      = blockCell [[Value.num 1, Value.num 2], [Value.num 3, Value.num 4]] 1 0
    ∧ applyWrite (fun _ _ => Value.str "old") (Pos.mk 1 1)
      [[Value.num 1, Value.num 2], [Value.num 3, Value.num 4]] 0 0
      = Value.str "old"
    ∧ (generate (fun n => if n = "S" then some (fun _ _ => Value.na) else none)
        (fun p => if p = "r1" then some [[Value.str "H"], [Value.str "F", Value.num 7]]
          else none)
        [Mapping.mk "S" (Pos.mk 0 0) "r1"] "F" []).outputFile
      = some ((generate (fun n => if n = "S" then some (fun _ _ => Value.na) else none)
          (fun p => if p = "r1" then some [[Value.str "H"], [Value.str "F", Value.num 7]]
            else none)
          [Mapping.mk "S" (Pos.mk 0 0) "r1"] "F" []).writes.foldl applyWriteWb
          (fun n => if n = "S" then some (fun _ _ => Value.na) else none)) := by
  have h := c5_writes_are_cleared_rectangles
    (fun n => if n = "S" then some (fun _ _ => Value.na) else none)
    (fun p => if p = "r1" then some [[Value.str "H"], [Value.str "F", Value.num 7]]
      else none)
    [Mapping.mk "S" (Pos.mk 0 0) "r1"] "F" []
  refine ⟨(h.1 _ _ _ 2 1).1 (by decide), (h.1 _ _ _ 0 0).2 (by decide),
    h.2 [("r1", [[Value.str "F", Value.num 7]])] (by rfl)⟩

/-- Claim C9: read_excel with no sheet name reads the file's first sheet
in native order; it succeeds exactly when the file parses and the
requested (or first) sheet exists. -/
theorem c9_read_excel_default_first_sheet
    (file : Option (List (String × List Row))) (sn : Option String) :
    ((∃ t, read_excel file sn = .ok t) ↔
      (∃ wb, file = some wb ∧
        match sn with
        | none => wb ≠ []
        | some n => (wb.lookup n).isSome))
    ∧ (∀ nm g rest, file = some ((nm, g) :: rest) → sn = none →
        read_excel file sn = .ok (g.drop 1)) := by
  constructor
  · constructor
    · rintro ⟨t, ht⟩
      cases file with
      | none => simp [read_excel] at ht
      | some wb =>
        refine ⟨wb, rfl, ?_⟩
        cases sn with
        | none =>
          cases wb with
          | nil => simp [read_excel] at ht
          | cons p rest => simp
        | some n =>
          dsimp only
          cases hl : wb.lookup n with
          | none => simp [read_excel, hl] at ht
          | some g => rfl
    · rintro ⟨wb, rfl, hcond⟩
      cases sn with
      | none =>
        cases wb with
        | nil => simp at hcond
        | cons p rest =>
          obtain ⟨nm, g⟩ := p
          exact ⟨g.drop 1, rfl⟩
      | some n =>
        obtain ⟨g, hg⟩ := Option.isSome_iff_exists.mp hcond
        exact ⟨g.drop 1, by simp [read_excel, hg]⟩
  · rintro nm g rest rfl rfl
    rfl

/-- Witness for C9: a two-sheet workbook read with no sheet name yields
the first sheet's data rows. -/
theorem c9_read_excel_default_first_sheet_witness :
    read_excel (some [("S1", [[Value.str "H"], [Value.str "A"]]),
      ("S2", [[Value.str "H2"]])]) none = .ok [[Value.str "A"]] :=
  (c9_read_excel_default_first_sheet _ none).2 "S1"
    [[Value.str "H"], [Value.str "A"]] [("S2", [[Value.str "H2"]])] rfl rfl

lemma generate_ok_cache {template : Workbook} {fs : String → Option (List Row)}
    {ms : List Mapping} {fc : String} {cache : Cache} {c' : Cache}
    (h : (generate template fs ms fc cache).result = .ok c') :
    (generate template fs ms fc cache).loads.Nodup
      ∧ (∀ r ∈ (generate template fs ms fc cache).loads,
          cache.lookup r = none ∧ (c'.lookup r).isSome)
      ∧ (∀ k v, cache.lookup k = some v → c'.lookup k = some v) := by
  cases hpg : processGroups fs fc (groupByReport ms) template cache [] [] with
  | error e =>
    rw [generate_unfold_error hpg] at h
    simp at h
  | ok q =>
    obtain ⟨wb, c2, l, w⟩ := q
    rw [generate_unfold_ok hpg] at h ⊢
    dsimp only at h ⊢
    injection h with h
    subst h
    obtain ⟨dl, hl1, hl2, hl3, hl4⟩ := processGroups_ok_cache _ _ _ _ _ _ _ _ _ hpg
    have hld : l = dl := by simpa using hl1
    rw [hld]
    exact ⟨hl2, hl3, hl4⟩

/-- Claim C4: across a batch of generate calls threading the returned
cache, each distinct report is read from disk at most once; every read
happens only for a report absent from the incoming cache, every loaded
table is stored, and no cache entry is ever evicted. -/
theorem c4_cache_loads_each_report_once
    (template : Workbook) (fs : String → Option (List Row)) (ms : List Mapping)
    (codes : List String) (cache0 : Cache) (c' : Cache) (L : List String)
    (h : runBatch template fs ms codes cache0 = .ok (c', L)) :
    L.Nodup
      ∧ (∀ r ∈ L, cache0.lookup r = none ∧ (c'.lookup r).isSome)
      ∧ (∀ k v, cache0.lookup k = some v → c'.lookup k = some v) := by
  induction codes generalizing cache0 c' L with
  | nil =>
    unfold runBatch at h
    injection h with h
    injection h with h1 h2
    subst h1; subst h2
    exact ⟨List.nodup_nil, by simp, fun k v hv => hv⟩
  | cons fc rest ih =>
    unfold runBatch at h
    dsimp only at h
    cases hres : (generate template fs ms fc cache0).result with
    | error e => rw [hres] at h; simp at h
    | ok cache1 =>
      rw [hres] at h
      dsimp only at h
      cases hrb : runBatch template fs ms rest cache1 with
      | error e => rw [hrb] at h; simp at h
      | ok q =>
        obtain ⟨cf, ls⟩ := q
        rw [hrb] at h
        dsimp only at h
        injection h with h
        injection h with h1 h2
        subst h1; subst h2
        obtain ⟨hn1, hp1, hm1⟩ := generate_ok_cache hres
        obtain ⟨hn2, hp2, hm2⟩ := ih cache1 cf ls hrb
        refine ⟨?_, ?_, ?_⟩
        · rw [List.nodup_append]
          refine ⟨hn1, hn2, ?_⟩
          intro r hr1 hr2
          have hsome := (hp1 r hr1).2
          have hnone := (hp2 r hr2).1
          obtain ⟨v, hv⟩ := Option.isSome_iff_exists.mp hsome
          rw [hnone] at hv
          simp at hv
        · intro r hr
          rcases List.mem_append.mp hr with hr1 | hr2
          · refine ⟨(hp1 r hr1).1, ?_⟩
            have hsome := (hp1 r hr1).2
            obtain ⟨v, hv⟩ := Option.isSome_iff_exists.mp hsome
            rw [hm2 r v hv]
            rfl
          · refine ⟨?_, (hp2 r hr2).2⟩
            have hnone := (hp2 r hr2).1
            cases hc0 : cache0.lookup r with
            | none => rfl
            | some v =>
              have := hm1 r v hc0
              rw [this] at hnone
              simp at hnone
        · intro k v hv
          exact hm2 k v (hm1 k v hv)

/-- Witness for C4: a two-fund batch over one mapped report reads that
report exactly once, stores it, and evicts nothing. -/
theorem c4_cache_loads_each_report_once_witness :
    (["r1"] : List String).Nodup
      ∧ (∀ r ∈ (["r1"] : List String),
          (([] : Cache).lookup r = none)
            ∧ ((([("r1", [[Value.str "X"]])] : Cache).lookup r).isSome))
      ∧ (∀ k v, ([] : Cache).lookup k = some v
          → ([("r1", [[Value.str "X"]])] : Cache).lookup k = some v) :=
  c4_cache_loads_each_report_once
    (fun n => if n = "S" then some (fun _ _ => Value.na) else none)
    (fun p => if p = "r1" then some [[Value.str "H"], [Value.str "X"]] else none)
    [Mapping.mk "S" (Pos.mk 0 0) "r1"] ["F1", "F2"] [] _ _ (by rfl)

lemma filter_flatMap {α β : Type} (l : List α) (f : α → List β) (p : β → Bool) :
    (l.flatMap f).filter p = l.flatMap (fun a => (f a).filter p) := by
  induction l with
  | nil => rfl
  | cons a t ih => simp only [List.flatMap_cons, List.filter_append, ih]

lemma flatMap_eq_single {l : List String} {G : String → List WriteOp} {k0 : String}
    (hnd : l.Nodup) (hmem : k0 ∈ l) (hz : ∀ k ∈ l, k ≠ k0 → G k = []) :
    l.flatMap G = G k0 := by
  induction l with
  | nil => simp at hmem
  | cons a t ih =>
    rw [List.flatMap_cons]
    by_cases ha : a = k0
    · subst ha
      have htz : t.flatMap G = [] := by
        rw [List.flatMap_eq_nil_iff]
        intro k hk
        refine hz k (List.mem_cons_of_mem a hk) ?_
        intro hka
        exact (List.nodup_cons.mp hnd).1 (hka ▸ hk)
      rw [htz, List.append_nil]
    · rw [hz a (List.mem_cons_self a t) ha, List.nil_append]
      refine ih (List.nodup_cons.mp hnd).2 ?_ (fun k hk => hz k (List.mem_cons_of_mem a hk))
      rcases List.mem_cons.mp hmem with h1 | h1
      · exact absurd h1.symm ha
      · exact h1

lemma mem_groupOps {fs : String → Option (List Row)} {fc : String} {cache : Cache}
    {p : String × List Mapping} {w : WriteOp} (h : w ∈ groupOps fs fc cache p) :
    ∃ df, resolveTable cache fs p.1 = some df ∧ ¬(filterTable df fc).isEmpty
      ∧ w.report = p.1 ∧ w.block = filterTable df fc := by
  unfold groupOps at h
  cases hres : resolveTable cache fs p.1 with
  | none => rw [hres] at h; simp at h
  | some df =>
    rw [hres] at h
    dsimp only at h
    by_cases hfe : (filterTable df fc).isEmpty
    · rw [if_pos hfe] at h; simp at h
    · rw [if_neg hfe] at h
      obtain ⟨h1, h2⟩ := mem_opsFor h
      exact ⟨df, rfl, hfe, h1, h2⟩

/-- Claim C7: when several mappings reference one report, generate emits
exactly one write per mapping of that report, and every such write
carries the identical filtered row block of that report. -/
theorem c7_one_write_per_mapping_same_block
    (template : Workbook) (fs : String → Option (List Row)) (ms : List Mapping)
    (fc : String) (cache : Cache) (rp : String) (df : Table) (c' : Cache)
    (hres : resolveTable cache fs rp = some df)
    (hne : ¬(filterTable df fc).isEmpty)
    (hok : (generate template fs ms fc cache).result = .ok c') :
    ((generate template fs ms fc cache).writes.filter
        (fun w => w.report == rp)).length
      = (ms.filter (fun m => m.report == rp)).length
    ∧ ∀ w ∈ (generate template fs ms fc cache).writes,
        w.report = rp → w.block = filterTable df fc := by
  cases hpg : processGroups fs fc (groupByReport ms) template cache [] [] with
  | error e =>
    rw [generate_unfold_error hpg] at hok
    simp at hok
  | ok q =>
    obtain ⟨wb, c2, l, w⟩ := q
    rw [generate_unfold_ok hpg] at hok ⊢
    dsimp only at hok ⊢
    have hw := processGroups_ok_writes _ _ _ _ _ _ _ _ _
      (groupByKey_keys_nodup _ _) hpg
    rw [List.nil_append] at hw
    subst hw
    constructor
    · -- one write per mapping of the report
      rw [filter_flatMap]
      by_cases hmem : rp ∈ ms.map (fun m => m.report)
      · have hrpk : rp ∈ firstKeys (ms.map (fun m => m.report)) :=
          (mem_firstKeys _ _).mpr hmem
        unfold groupByKey
        simp only [List.flatMap_map]
        have hz : ∀ k ∈ firstKeys (ms.map (fun m => m.report)), k ≠ rp →
            ((groupOps fs fc cache
              (k, ms.filter (fun m => m.report == k))).filter
                (fun w => w.report == rp)) = [] := by
          intro k hk hkne
          rw [List.filter_eq_nil_iff]
          intro w hwmem
          obtain ⟨df2, _, _, hrep, _⟩ := mem_groupOps hwmem
          simp only [beq_iff_eq]
          rw [hrep]
          exact hkne
        rw [flatMap_eq_single (nodup_firstKeys _) hrpk hz]
        have hops : groupOps fs fc cache (rp, ms.filter (fun m => m.report == rp))
            = opsFor rp (ms.filter (fun m => m.report == rp)) (filterTable df fc) := by
          unfold groupOps
          rw [hres]
          dsimp only
          rw [if_neg hne]
        rw [hops]
        have hall : (opsFor rp (ms.filter (fun m => m.report == rp))
            (filterTable df fc)).filter (fun w => w.report == rp)
            = opsFor rp (ms.filter (fun m => m.report == rp)) (filterTable df fc) := by
          rw [List.filter_eq_self]
          intro w hwmem
          obtain ⟨hrep, _⟩ := mem_opsFor hwmem
          simp [hrep]
        rw [hall, opsFor_length]
      · have hl : (ms.filter (fun m => m.report == rp)) = [] := by
          rw [List.filter_eq_nil_iff]
          intro m hm hbeq
          rw [beq_iff_eq] at hbeq
          exact hmem (hbeq ▸ List.mem_map_of_mem _ hm)
        rw [hl]
        have hz : ∀ p ∈ groupByReport ms,
            ((groupOps fs fc cache p).filter (fun w => w.report == rp)) = [] := by
          intro p hp
          obtain ⟨rpk, gms⟩ := p
          obtain ⟨hg, hk⟩ := mem_groupByKey hp
          rw [List.filter_eq_nil_iff]
          intro w hwmem
          obtain ⟨df2, _, _, hrep, _⟩ := mem_groupOps hwmem
          simp only [beq_iff_eq]
          rw [hrep]
          intro hke
          exact hmem (hke ▸ hk)
        have hzz : ∀ p ∈ groupByKey (fun m => m.report) ms,
            (List.filter (fun w => w.report == rp) (groupOps fs fc cache p)) = [] := hz
        rw [List.flatMap_eq_nil_iff.mpr hzz]
        rfl
    · -- every write of the report carries the same block
      intro w hwmem hwrep
      obtain ⟨p, hp, hpw⟩ := List.mem_flatMap.mp hwmem
      obtain ⟨df2, hres2, hne2, hrep2, hblk2⟩ := mem_groupOps hpw
      rw [hwrep] at hrep2
      rw [hrep2] at hres
      rw [hres2] at hres
      injection hres with hres
      rw [hblk2, hres]

/-- Witness for C7: two mappings on different sheets referencing the same
report produce two writes, and a concrete write of that report carries
the report's filtered block. -/
theorem c7_one_write_per_mapping_same_block_witness :
    ((generate
        (fun n => if n = "S" then some (fun _ _ => Value.na)
          else if n = "T" then some (fun _ _ => Value.na) else none)
        (fun p => if p = "r1" then some [[Value.str "H"], [Value.str "F", Value.num 7]]
          else none)
        [Mapping.mk "S" (Pos.mk 0 0) "r1", Mapping.mk "T" (Pos.mk 2 0) "r1"]
        "F" []).writes.filter (fun w => w.report == "r1")).length
      = ([Mapping.mk "S" (Pos.mk 0 0) "r1", Mapping.mk "T" (Pos.mk 2 0) "r1"].filter
          (fun m => m.report == "r1")).length := by
  have h := c7_one_write_per_mapping_same_block
    (fun n => if n = "S" then some (fun _ _ => Value.na)
      else if n = "T" then some (fun _ _ => Value.na) else none)
    (fun p => if p = "r1" then some [[Value.str "H"], [Value.str "F", Value.num 7]]
      else none)
    [Mapping.mk "S" (Pos.mk 0 0) "r1", Mapping.mk "T" (Pos.mk 2 0) "r1"]
    "F" [] "r1" [[Value.str "F", Value.num 7]]
    [("r1", [[Value.str "F", Value.num 7]])] (by rfl) (by decide) (by rfl)
  exact h.1

/-- Claim C10: when every first-column cell of a report is numeric,
missing, or whitespace-padded, each fund code extraction reports matches
no row in generate's raw-equality filter, and the generated output is the
untouched template. -/
theorem c10_extraction_trims_but_filter_compares_raw
    (g : List Row) (codes : List String) (fc : String)
    (template : Workbook) (fs : String → Option (List Row)) (ms : List Mapping)
    (hext : get_fund_codes (some g) = .ok codes)
    (hfc : fc ∈ codes)
    (hbad : ∀ row ∈ g.drop 1, badCell (row.headD Value.na))
    (hfs : ∀ m ∈ ms, fs m.report = some g) :
    filterTable (g.drop 1) fc = []
      ∧ (generate template fs ms fc []).writes = []
      ∧ (generate template fs ms fc []).outputFile = some template
      ∧ ∃ c', (generate template fs ms fc []).result = .ok c' := by
  have hstrip : pyStrip fc = fc := strip_fixed_of_mem_get_fund_codes g codes fc hext hfc
  have hfilter : filterTable (g.drop 1) fc = [] := by
    unfold filterTable
    rw [List.filter_eq_nil_iff]
    intro row hrow
    have hb := hbad row hrow
    cases hv : row.headD Value.na with
    | na => simp [eqFund]
    | num n => simp [eqFund]
    | str s =>
      rw [hv] at hb
      unfold badCell at hb
      simp only [Bool.not_eq_eq_eq_not, Bool.not_true] at hb
      unfold eqFund
      intro hbeq
      rw [beq_iff_eq] at hbeq
      rw [hbeq] at hb
      rw [hstrip] at hb
      simp at hb
  refine ⟨hfilter, ?_⟩
  have hall : ∀ p ∈ groupByReport ms, ∃ df,
      resolveTable ([] : Cache) fs p.1 = some df ∧ (filterTable df fc).isEmpty := by
    intro p hp
    obtain ⟨rp, gms⟩ := p
    obtain ⟨hg, hk⟩ := mem_groupByKey hp
    obtain ⟨m, hm, hmr⟩ := List.mem_map.mp hk
    refine ⟨g.drop 1, ?_, by rw [hfilter]; rfl⟩
    unfold resolveTable
    dsimp only
    rw [← hmr, hfs m hm]
    rfl
  obtain ⟨cache', loads', heq⟩ := processGroups_all_empty (groupByReport ms)
    template [] [] [] hall (groupByKey_keys_nodup _ _)
  rw [generate_unfold_ok heq]
  exact ⟨rfl, rfl, cache', rfl⟩

/-- Witness for C10: a report whose only fund-code cells are the
whitespace-padded string " F1 " yields the extracted code F1, which
matches no row, so generation copies the template unchanged. -/
theorem c10_extraction_trims_but_filter_compares_raw_witness :
    filterTable ([[Value.str "H"], [Value.str " F1 "], [Value.str " F1 "]].drop 1) "F1" = []
      ∧ (generate (fun n => if n = "S" then some (fun _ _ => Value.na) else none)
          (fun p => if p = "r1"
            then some [[Value.str "H"], [Value.str " F1 "], [Value.str " F1 "]] else none)
          [Mapping.mk "S" (Pos.mk 0 0) "r1"] "F1" []).writes = []
      ∧ (generate (fun n => if n = "S" then some (fun _ _ => Value.na) else none)
          (fun p => if p = "r1"
            then some [[Value.str "H"], [Value.str " F1 "], [Value.str " F1 "]] else none)
          [Mapping.mk "S" (Pos.mk 0 0) "r1"] "F1" []).outputFile
        = some (fun n => if n = "S" then some (fun _ _ => Value.na) else none)
      ∧ ∃ c', (generate (fun n => if n = "S" then some (fun _ _ => Value.na) else none)
          (fun p => if p = "r1"
            then some [[Value.str "H"], [Value.str " F1 "], [Value.str " F1 "]] else none)
          [Mapping.mk "S" (Pos.mk 0 0) "r1"] "F1" []).result = .ok c' :=
  c10_extraction_trims_but_filter_compares_raw
    [[Value.str "H"], [Value.str " F1 "], [Value.str " F1 "]] ["F1"] "F1"
    (fun n => if n = "S" then some (fun _ _ => Value.na) else none)
    (fun p => if p = "r1"
      then some [[Value.str "H"], [Value.str " F1 "], [Value.str " F1 "]] else none)
    [Mapping.mk "S" (Pos.mk 0 0) "r1"]
    (by rfl) (by decide) (by decide) (by decide)

end ExcelGen
